import Mathlib

/-!
Verification of the testchess backend against its specification.

The definitions below are shallow embeddings of the Python source files
`backend/tournament.py`, `backend/match.py` and `backend/uci_interface.py`.
Machine integers are modelled as `Nat`/`Int` (no overflow is possible in the
Python source, which has arbitrary-precision integers), Python floats holding
only dyadic values (points in half-point steps) are modelled as `Rat`,
Python `None`-able values as `Option`, and Python dictionaries as association
lists in insertion order.
-/

namespace Testchess

/-- Embeds `TournamentStats.__init__` / `add_result` state
(`backend/tournament.py`, lines 20-57).  `points` is a Python float that only
ever receives exact additions of 1.0 and 0.5, modelled as `Rat`. -/
structure TournamentStats where
  engine_name : String
  games_played : Nat
  wins : Nat
  losses : Nat
  draws : Nat
  points : Rat
  wins_as_white : Nat
  wins_as_black : Nat
  total_nodes : Nat
deriving Repr, DecidableEq

/-- Embeds `TournamentStats.__init__(engine_name)` (tournament.py 23-32). -/
def TournamentStats.init (name : String) : TournamentStats :=
  { engine_name := name, games_played := 0, wins := 0, losses := 0, draws := 0,
    points := 0, wins_as_white := 0, wins_as_black := 0, total_nodes := 0 }

/-- Embeds `TournamentStats.add_result(result, color, nodes)`
(tournament.py 34-57): games_played and total_nodes always grow; a "win" adds
1 win and 1.0 points (and a per-color win), a "loss" adds 1 loss, a "draw"
adds 1 draw and 0.5 points; any other result string changes nothing else. -/
def TournamentStats.add_result (s : TournamentStats)
    (result color : String) (nodes : Nat) : TournamentStats :=
  let s0 := { s with games_played := s.games_played + 1,
                     total_nodes := s.total_nodes + nodes }
  if result = "win" then
    let s1 := { s0 with wins := s0.wins + 1, points := s0.points + 1 }
    if color = "white" then { s1 with wins_as_white := s1.wins_as_white + 1 }
    else { s1 with wins_as_black := s1.wins_as_black + 1 }
  else if result = "loss" then
    { s0 with losses := s0.losses + 1 }
  else if result = "draw" then
    { s0 with draws := s0.draws + 1, points := s0.points + 1/2 }
  else s0

/-- The spec's accumulator invariant: points = wins + 0.5 * draws. -/
def statsInvariant (s : TournamentStats) : Prop :=
  s.points = (s.wins : Rat) + (s.draws : Rat) / 2

/-- One `add_result` call preserves the points invariant. -/
lemma add_result_preserves_invariant (s : TournamentStats)
    (result color : String) (nodes : Nat) (h : statsInvariant s) :
    statsInvariant (s.add_result result color nodes) := by
  unfold statsInvariant TournamentStats.add_result at *
  split_ifs <;> simp_all <;> push_cast <;> ring_nf <;> linarith

/-- Folding any list of `add_result` calls preserves the points invariant. -/
lemma foldl_add_result_preserves_invariant
    (ops : List (String × String × Nat)) :
    ∀ s : TournamentStats, statsInvariant s →
      statsInvariant
        (ops.foldl (fun s o => s.add_result o.1 o.2.1 o.2.2) s) := by
  induction ops with
  | nil => intro s hs; exact hs
  | cons o rest ih =>
    intro s hs
    exact ih _ (add_result_preserves_invariant s o.1 o.2.1 o.2.2 hs)

/-- Embeds the per-game stats update of `Tournament._play_game`
(tournament.py 260-272): the white and black accumulators are updated
strictly from `result.winner`; every value other than "white"/"black"
falls into the draw branch. -/
def playGameStatsUpdate (wS bS : TournamentStats) (winner : String)
    (nodesW nodesB : Nat) : TournamentStats × TournamentStats :=
  if winner = "white" then
    (wS.add_result "win" "white" nodesW, bS.add_result "loss" "black" nodesB)
  else if winner = "black" then
    (wS.add_result "loss" "white" nodesW, bS.add_result "win" "black" nodesB)
  else
    (wS.add_result "draw" "white" nodesW, bS.add_result "draw" "black" nodesB)

/-- Claim C2: for every TournamentStats accumulator, after any sequence of
`add_result` calls (each with an arbitrary result string, color and node
count), the equation points = wins + 0.5 * draws holds. -/
theorem claim_C2_stats_points_invariant (name : String)
    (ops : List (String × String × Nat)) :
    statsInvariant
      (ops.foldl (fun s o => s.add_result o.1 o.2.1 o.2.2)
        (TournamentStats.init name)) := by
  have base : statsInvariant (TournamentStats.init name) := by
    unfold statsInvariant TournamentStats.init; norm_num
  exact foldl_add_result_preserves_invariant ops _ base

/-- Claim C10: whenever the MatchResult winner is neither "white" nor
"black" (in particular "error"), `Tournament._play_game` updates both
participants exactly as a draw: one more game, one more draw, half a point,
with wins and losses unchanged. -/
theorem claim_C10_error_scored_as_draw (wS bS : TournamentStats)
    (winner : String) (nodesW nodesB : Nat)
    (hw : winner ≠ "white") (hb : winner ≠ "black") :
    (playGameStatsUpdate wS bS winner nodesW nodesB).1.games_played
        = wS.games_played + 1 ∧
    (playGameStatsUpdate wS bS winner nodesW nodesB).1.draws = wS.draws + 1 ∧
    (playGameStatsUpdate wS bS winner nodesW nodesB).1.points
        = wS.points + 1/2 ∧
    (playGameStatsUpdate wS bS winner nodesW nodesB).1.wins = wS.wins ∧
    (playGameStatsUpdate wS bS winner nodesW nodesB).1.losses = wS.losses ∧
    (playGameStatsUpdate wS bS winner nodesW nodesB).2.games_played
        = bS.games_played + 1 ∧
    (playGameStatsUpdate wS bS winner nodesW nodesB).2.draws = bS.draws + 1 ∧
    (playGameStatsUpdate wS bS winner nodesW nodesB).2.points
        = bS.points + 1/2 ∧
    (playGameStatsUpdate wS bS winner nodesW nodesB).2.wins = bS.wins ∧
    (playGameStatsUpdate wS bS winner nodesW nodesB).2.losses = bS.losses := by
  unfold playGameStatsUpdate TournamentStats.add_result
  simp [hw, hb]

/-- Witness for claim C10 at the concrete MatchResult winner "error"
(the value Match.play assigns on an internal exception, match.py 246-249). -/
theorem claim_C10_error_scored_as_draw_witness :
    ("error" ≠ "white" ∧ "error" ≠ "black") ∧
    ((playGameStatsUpdate (TournamentStats.init "A") (TournamentStats.init "B")
        "error" 3 4).1.games_played = (TournamentStats.init "A").games_played + 1 ∧
     (playGameStatsUpdate (TournamentStats.init "A") (TournamentStats.init "B")
        "error" 3 4).1.draws = (TournamentStats.init "A").draws + 1 ∧
     (playGameStatsUpdate (TournamentStats.init "A") (TournamentStats.init "B")
        "error" 3 4).1.points = (TournamentStats.init "A").points + 1/2 ∧
     (playGameStatsUpdate (TournamentStats.init "A") (TournamentStats.init "B")
        "error" 3 4).1.wins = (TournamentStats.init "A").wins ∧
     (playGameStatsUpdate (TournamentStats.init "A") (TournamentStats.init "B")
        "error" 3 4).1.losses = (TournamentStats.init "A").losses ∧
     (playGameStatsUpdate (TournamentStats.init "A") (TournamentStats.init "B")
        "error" 3 4).2.games_played = (TournamentStats.init "B").games_played + 1 ∧
     (playGameStatsUpdate (TournamentStats.init "A") (TournamentStats.init "B")
        "error" 3 4).2.draws = (TournamentStats.init "B").draws + 1 ∧
     (playGameStatsUpdate (TournamentStats.init "A") (TournamentStats.init "B")
        "error" 3 4).2.points = (TournamentStats.init "B").points + 1/2 ∧
     (playGameStatsUpdate (TournamentStats.init "A") (TournamentStats.init "B")
        "error" 3 4).2.wins = (TournamentStats.init "B").wins ∧
     (playGameStatsUpdate (TournamentStats.init "A") (TournamentStats.init "B")
        "error" 3 4).2.losses = (TournamentStats.init "B").losses) :=
  ⟨⟨by decide, by decide⟩,
   claim_C10_error_scored_as_draw (TournamentStats.init "A")
     (TournamentStats.init "B") "error" 3 4 (by decide) (by decide)⟩

/-- Abstract interface of the external rules collaborator (the `chess`
library used by `Match.play`): side to move, game-over test, UCI token
parsing (`chess.Move.from_uci`, `none` when it raises), legality test
(`move in board.legal_moves`) and move application (`board.push`). -/
structure RulesIface (B M : Type) where
  turnWhite : B → Bool
  isGameOver : B → Bool
  parseUci : String → Option M
  isLegal : B → M → Bool
  push : B → M → B

/-- One ply's inputs to the `Match.play` loop: the `bestmove` token returned
by `go` (match.py 140-149), the measured elapsed wall-clock milliseconds
(match.py 139,146; an `Int` since `time.time()` is not monotone), and the
node count of the last info record (0 when the info list is empty,
match.py 181-187). -/
structure PlyInput where
  bestmove : Option String
  elapsed : Int
  nodes : Nat
deriving Repr, DecidableEq

/-- The orchestrator-local game state of `Match.play`: the board (owned by
the rules collaborator), both remaining clocks in ms, the ply counter
`move_count` and both node accumulators. -/
structure MatchState (B : Type) where
  board : B
  timeW : Int
  timeB : Int
  moveCount : Nat
  nodesW : Nat
  nodesB : Nat

/-- Outcome of one iteration of the `while` loop in `Match.play`:
either the loop continues with an updated state, or it breaks with a
winner/reason pair (match.py 149-209). -/
inductive StepOut (B : Type)
  | next (s : MatchState B)
  | done (winner : String) (reason : String) (s : MatchState B)

/-- The opponent of the side to move, as `Match.play` computes it:
`"black" if board.turn == chess.WHITE else "white"`. -/
def oppOf (whiteToMove : Bool) : String :=
  if whiteToMove then "black" else "white"

/-- Embeds one iteration of the game loop of `Match.play`
(match.py 129-209): missing bestmove ends the game ("Engine failure");
an unparsable or illegal token ends it ("Illegal move"); otherwise the move
is pushed, the mover's clock is floored at zero after subtracting elapsed
time and adding the increment (the mover is identified by the post-push
side to move, match.py 175-178), nodes are accumulated, and a clock at or
below zero breaks with "Time forfeit" (white's clock checked first,
match.py 201-209). -/
def movedState {B M : Type} (R : RulesIface B M) (inc : Int)
    (s : MatchState B) (inp : PlyInput) (m : M) : MatchState B :=
  let b2 := R.push s.board m
  let whiteJustMoved := !(R.turnWhite b2)
  { board := b2,
    timeW := if whiteJustMoved then max 0 (s.timeW - inp.elapsed + inc)
             else s.timeW,
    timeB := if whiteJustMoved then s.timeB
             else max 0 (s.timeB - inp.elapsed + inc),
    moveCount := s.moveCount + 1,
    nodesW := if whiteJustMoved then s.nodesW + inp.nodes else s.nodesW,
    nodesB := if whiteJustMoved then s.nodesB else s.nodesB + inp.nodes }

def stepPly {B M : Type} (R : RulesIface B M) (inc : Int)
    (s : MatchState B) (inp : PlyInput) : StepOut B :=
  match inp.bestmove with
  | none => .done (oppOf (R.turnWhite s.board)) "Engine failure" s
  | some tok =>
    match R.parseUci tok with
    | none => .done (oppOf (R.turnWhite s.board)) "Illegal move" s
    | some m =>
      if R.isLegal s.board m then
        let s2 := movedState R inc s inp m
        if s2.timeW ≤ 0 then .done "black" "Time forfeit" s2
        else if s2.timeB ≤ 0 then .done "white" "Time forfeit" s2
        else .next s2
      else .done (oppOf (R.turnWhite s.board)) "Illegal move" s

/-- Exactly one side's clock is rewritten by a legal move: the other side's
clock is carried over unchanged, mirroring match.py 175-178. -/
lemma movedState_clock_cases {B M : Type} (R : RulesIface B M) (inc : Int)
    (s : MatchState B) (inp : PlyInput) (m : M) :
    ((movedState R inc s inp m).timeW
        = max 0 (s.timeW - inp.elapsed + inc) ∧
      (movedState R inc s inp m).timeB = s.timeB) ∨
    ((movedState R inc s inp m).timeW = s.timeW ∧
      (movedState R inc s inp m).timeB
        = max 0 (s.timeB - inp.elapsed + inc)) := by
  unfold movedState
  by_cases h : R.turnWhite (R.push s.board m) <;> simp [h]

/-- Embeds the `while not board.is_game_over() and move_count < max_moves`
loop of `Match.play`, driven by the finite trace of engine responses.
Returns the sequence of post-ply states together with the explicit
winner/reason pair when the loop broke with one (final classification of
quiet exits, match.py 211-233, is outside this loop). -/
def runPlies {B M : Type} (R : RulesIface B M) (inc : Int) (maxMoves : Nat) :
    MatchState B → List PlyInput →
      List (MatchState B) × Option (String × String)
  | _, [] => ([], none)
  | s, inp :: rest =>
    if R.isGameOver s.board = true ∨ maxMoves ≤ s.moveCount then ([], none)
    else
      match stepPly R inc s inp with
      | .done w r s2 => ([s2], some (w, r))
      | .next s2 =>
        let t := runPlies R inc maxMoves s2 rest
        (s2 :: t.1, t.2)

/-- If both clocks are strictly positive and `stepPly` continues, both
clocks stay strictly positive. -/
lemma stepPly_next_pos {B M : Type} (R : RulesIface B M) (inc : Int)
    (s : MatchState B) (inp : PlyInput)
    (hW : 0 < s.timeW) (hB : 0 < s.timeB)
    (s2 : MatchState B) (h : stepPly R inc s inp = .next s2) :
    0 < s2.timeW ∧ 0 < s2.timeB := by
  rcases hbm : inp.bestmove with _ | tok
  · simp [stepPly, hbm] at h
  · rcases hp : R.parseUci tok with _ | m
    · simp [stepPly, hbm, hp] at h
    · by_cases hleg : R.isLegal s.board m
      · simp only [stepPly, hbm, hp, hleg, if_true] at h
        split at h
        · exact absurd h (by simp)
        · split at h
          · exact absurd h (by simp)
          · injection h with h3
            subst h3
            omega
      · simp [stepPly, hbm, hp, hleg] at h

/-- If both clocks are strictly positive and `stepPly` ends the game, the
recorded state has both clocks non-negative; a zero white clock occurs only
with the ("black", "Time forfeit") outcome and a zero black clock only with
("white", "Time forfeit"). -/
lemma stepPly_done_clocks {B M : Type} (R : RulesIface B M) (inc : Int)
    (s : MatchState B) (inp : PlyInput)
    (hW : 0 < s.timeW) (hB : 0 < s.timeB)
    (w r : String) (s2 : MatchState B)
    (h : stepPly R inc s inp = .done w r s2) :
    (0 ≤ s2.timeW ∧ 0 ≤ s2.timeB) ∧
    (s2.timeW = 0 → (w, r) = ("black", "Time forfeit")) ∧
    (s2.timeB = 0 → (w, r) = ("white", "Time forfeit")) := by
  have hmaxW : (0:Int) ≤ max 0 (s.timeW - inp.elapsed + inc) := le_max_left _ _
  have hmaxB : (0:Int) ≤ max 0 (s.timeB - inp.elapsed + inc) := le_max_left _ _
  rcases hbm : inp.bestmove with _ | tok
  · simp only [stepPly, hbm, StepOut.done.injEq] at h
    obtain ⟨hw, hr, hs⟩ := h; subst hs
    exact ⟨⟨le_of_lt hW, le_of_lt hB⟩, fun h0 => by omega, fun h0 => by omega⟩
  · rcases hp : R.parseUci tok with _ | m
    · simp only [stepPly, hbm, hp, StepOut.done.injEq] at h
      obtain ⟨hw, hr, hs⟩ := h; subst hs
      exact ⟨⟨le_of_lt hW, le_of_lt hB⟩, fun h0 => by omega, fun h0 => by omega⟩
    · by_cases hleg : R.isLegal s.board m
      · simp only [stepPly, hbm, hp, hleg, if_true] at h
        rcases movedState_clock_cases R inc s inp m with ⟨e1, e2⟩ | ⟨e1, e2⟩ <;>
          split at h
        · injection h with hw hr hs
          subst hw; subst hr; subst hs
          refine ⟨⟨by omega, by omega⟩, fun _ => rfl, fun h0 => by omega⟩
        · split at h
          · injection h with hw hr hs
            subst hw; subst hr; subst hs
            refine ⟨⟨by omega, by omega⟩, fun h0 => by omega, fun _ => rfl⟩
          · exact absurd h (by simp)
        · injection h with hw hr hs
          subst hw; subst hr; subst hs
          refine ⟨⟨by omega, by omega⟩, fun _ => rfl, fun h0 => by omega⟩
        · split at h
          · injection h with hw hr hs
            subst hw; subst hr; subst hs
            refine ⟨⟨by omega, by omega⟩, fun h0 => by omega, fun _ => rfl⟩
          · exact absurd h (by simp)
      · simp only [stepPly, hbm, hp, hleg, if_false, StepOut.done.injEq,
          Bool.false_eq_true] at h
        obtain ⟨hw, hr, hs⟩ := h; subst hs
        exact ⟨⟨le_of_lt hW, le_of_lt hB⟩, fun h0 => by omega, fun h0 => by omega⟩

/-- Trace-level clock invariant of the game loop, by induction on the
engine-response trace, starting from any state with positive clocks. -/
lemma runPlies_clock_invariant {B M : Type} (R : RulesIface B M) (inc : Int)
    (maxMoves : Nat) (inputs : List PlyInput) :
    ∀ s : MatchState B, 0 < s.timeW → 0 < s.timeB →
      ∀ t ∈ (runPlies R inc maxMoves s inputs).1,
        (0 ≤ t.timeW ∧ 0 ≤ t.timeB) ∧
        (t.timeW = 0 →
          (runPlies R inc maxMoves s inputs).2 =
            some ("black", "Time forfeit")) ∧
        (t.timeB = 0 →
          (runPlies R inc maxMoves s inputs).2 =
            some ("white", "Time forfeit")) := by
  induction inputs with
  | nil => intro s _ _ t ht; simp [runPlies] at ht
  | cons inp rest ih =>
    intro s hW hB t ht
    by_cases hguard : R.isGameOver s.board = true ∨ maxMoves ≤ s.moveCount
    · simp [runPlies, hguard] at ht
    · rcases hstep : stepPly R inc s inp with s2 | ⟨w, r, s2⟩
      · -- loop continues
        have hpos := stepPly_next_pos R inc s inp hW hB s2 hstep
        have hrun : runPlies R inc maxMoves s (inp :: rest) =
            (s2 :: (runPlies R inc maxMoves s2 rest).1,
             (runPlies R inc maxMoves s2 rest).2) := by
          simp [runPlies, hguard, hstep]
        rw [hrun] at ht ⊢
        simp only [List.mem_cons] at ht
        rcases ht with rfl | ht
        · exact ⟨⟨le_of_lt hpos.1, le_of_lt hpos.2⟩,
            fun h0 => by omega, fun h0 => by omega⟩
        · exact ih s2 hpos.1 hpos.2 t ht
      · -- loop breaks with an explicit result
        have hdone := stepPly_done_clocks R inc s inp hW hB w r s2 hstep
        have hrun : runPlies R inc maxMoves s (inp :: rest) =
            ([s2], some (w, r)) := by
          simp [runPlies, hguard, hstep]
        rw [hrun] at ht ⊢
        simp only [List.mem_singleton] at ht
        subst ht
        refine ⟨hdone.1, fun h0 => ?_, fun h0 => ?_⟩
        · rw [hdone.2.1 h0]
        · rw [hdone.2.2 h0]

/-- Claim C1: in every match, the mover's clock is updated by subtracting
measured elapsed time, adding the increment, and flooring at zero
(`max(0, t - elapsed + increment)`); hence, starting from a positive time
control, after each ply both clocks are >= 0, and a post-move clock equal
to zero ends the game at that ply with a "Time forfeit" for the opponent. -/
theorem claim_C1_clock_floor_and_forfeit {B M : Type} (R : RulesIface B M)
    (inc : Int) (maxMoves : Nat) (timeControl : Int) (b : B)
    (inputs : List PlyInput) (htc : 0 < timeControl) :
    ∀ t ∈ (runPlies R inc maxMoves
        { board := b, timeW := timeControl, timeB := timeControl,
          moveCount := 0, nodesW := 0, nodesB := 0 } inputs).1,
      (0 ≤ t.timeW ∧ 0 ≤ t.timeB) ∧
      (t.timeW = 0 →
        (runPlies R inc maxMoves
          { board := b, timeW := timeControl, timeB := timeControl,
            moveCount := 0, nodesW := 0, nodesB := 0 } inputs).2 =
          some ("black", "Time forfeit")) ∧
      (t.timeB = 0 →
        (runPlies R inc maxMoves
          { board := b, timeW := timeControl, timeB := timeControl,
            moveCount := 0, nodesW := 0, nodesB := 0 } inputs).2 =
          some ("white", "Time forfeit")) :=
  runPlies_clock_invariant R inc maxMoves inputs _ htc htc

/-- Claim C7: when the engine to move returns a bestmove token that the
rules collaborator rejects — unparsable (`chess.Move.from_uci` raises,
match.py 156-162) or parsed but not in `board.legal_moves`
(match.py 164-168) — the game loop ends immediately: the state is
unchanged, the winner is the opponent of the side to move and the reason
is "Illegal move". -/
theorem claim_C7_illegal_move_ends_match {B M : Type} (R : RulesIface B M)
    (inc : Int) (maxMoves : Nat) (s : MatchState B) (inp : PlyInput)
    (rest : List PlyInput) (tok : String)
    (hover : R.isGameOver s.board = false) (hmc : s.moveCount < maxMoves)
    (hbm : inp.bestmove = some tok)
    (hrej : R.parseUci tok = none ∨
      ∃ m, R.parseUci tok = some m ∧ R.isLegal s.board m = false) :
    runPlies R inc maxMoves s (inp :: rest) =
      ([s], some (oppOf (R.turnWhite s.board), "Illegal move")) := by
  have hguard : ¬(R.isGameOver s.board = true ∨ maxMoves ≤ s.moveCount) := by
    simp only [hover, Bool.false_eq_true, false_or]
    omega
  have hstep : stepPly R inc s inp =
      .done (oppOf (R.turnWhite s.board)) "Illegal move" s := by
    rcases hrej with hp | ⟨m, hp, hleg⟩
    · simp [stepPly, hbm, hp]
    · simp [stepPly, hbm, hp, hleg]
  simp [runPlies, hguard, hstep]

/-- Modelled from the spec: a miniature instance of the external rules
collaborator (the chess library, which is not part of this repository),
used only to instantiate witnesses.  Following the spec's scenario wording
that the token "a1a1" is illegal, `parseUci` rejects exactly "a1a1"; the
board is reduced to the side-to-move flag, every parsed move is legal,
pushing a move flips the side to move, and no position is game over. -/
def demoRules : RulesIface Bool String where
  turnWhite := fun b => b
  isGameOver := fun _ => false
  parseUci := fun tok => if tok = "a1a1" then none else some tok
  isLegal := fun _ _ => true
  push := fun b _ => !b

/-- Witness for claim C7: from the start position (white to move, ply 0),
an engine answering "a1a1" loses at once with reason "Illegal move" and
winner "black". -/
theorem claim_C7_illegal_move_ends_match_witness :
    (demoRules.isGameOver true = false ∧ (0:Nat) < 10 ∧
     (PlyInput.mk (some "a1a1") 50 0).bestmove = some "a1a1" ∧
     demoRules.parseUci "a1a1" = none) ∧
    runPlies demoRules 0 10
        { board := true, timeW := 1000, timeB := 1000,
          moveCount := 0, nodesW := 0, nodesB := 0 }
        [PlyInput.mk (some "a1a1") 50 0] =
      ([{ board := true, timeW := 1000, timeB := 1000,
          moveCount := 0, nodesW := 0, nodesB := 0 }],
        some ("black", "Illegal move")) :=
  ⟨⟨rfl, by decide, rfl, rfl⟩, by
    rw [claim_C7_illegal_move_ends_match demoRules 0 10
      { board := true, timeW := 1000, timeB := 1000,
        moveCount := 0, nodesW := 0, nodesB := 0 }
      (PlyInput.mk (some "a1a1") 50 0) [] "a1a1" rfl (by decide) rfl
      (Or.inl rfl)]
    rfl⟩

/-- Witness for claim C1: a one-ply game at time control 1000 ms with
increment 0; the theorem's conclusion is instantiated at this input. -/
theorem claim_C1_clock_floor_and_forfeit_witness :
    (0:Int) < 1000 ∧
    ∀ t ∈ (runPlies demoRules 0 10
        { board := true, timeW := 1000, timeB := 1000,
          moveCount := 0, nodesW := 0, nodesB := 0 }
        [PlyInput.mk (some "e2e4") 100 5]).1,
      (0 ≤ t.timeW ∧ 0 ≤ t.timeB) ∧
      (t.timeW = 0 →
        (runPlies demoRules 0 10
          { board := true, timeW := 1000, timeB := 1000,
            moveCount := 0, nodesW := 0, nodesB := 0 }
          [PlyInput.mk (some "e2e4") 100 5]).2 =
          some ("black", "Time forfeit")) ∧
      (t.timeB = 0 →
        (runPlies demoRules 0 10
          { board := true, timeW := 1000, timeB := 1000,
            moveCount := 0, nodesW := 0, nodesB := 0 }
          [PlyInput.mk (some "e2e4") 100 5]).2 =
          some ("white", "Time forfeit")) :=
  ⟨by decide,
   claim_C1_clock_floor_and_forfeit demoRules 0 10 1000 true
     [PlyInput.mk (some "e2e4") 100 5] (by decide)⟩

/-- Embeds `EngineConfig` (engine_manager.py 16-22), restricted to the
fields the scheduler reads. -/
structure EngineConfig where
  name : String
  path : String
deriving Repr, DecidableEq

/-- An opening: a list of UCI move tokens (one entry of the tournament's
`opening_book`). -/
abbrev Opening := List String

/-- One scheduled/played game of a tournament: the two participants (white
first) and the opening prefix handed to `Match` (tournament.py 250-256). -/
structure GamePlayed where
  white : String
  black : String
  opening : Opening
deriving Repr, DecidableEq

/-- Embeds `itertools.combinations(engine_names, 2)`
(tournament.py 144): all index pairs i < j, in lexicographic order. -/
def pairings {α : Type} : List α → List (α × α)
  | [] => []
  | x :: xs => xs.map (fun y => (x, y)) ++ pairings xs

/-- Embeds the planned total `len(pairings) * rounds * 2`
(tournament.py 145). -/
def total_games (engine_names : List String) (rounds : Nat) : Nat :=
  (pairings engine_names).length * rounds * 2

/-- Embeds the inner pairing loop of `run_round_robin`
(tournament.py 155-177): per unordered pair, resolve both configs (a
missing config skips the pair entirely), then — when an opening pool is
configured — draw ONE opening by `random.choice` for the pair, and play two
games with colors swapped, both with that same opening.  Randomness is
embedded as the explicit stream of indices `random.choice` consumes:
`draws` counts the choices made so far, and the k-th call returns
`book[stream k % book.length]`. -/
def playPairings (getEngine : String → Option EngineConfig)
    (book : List Opening) (stream : Nat → Nat) :
    List (String × String) → Nat → List GamePlayed × Nat
  | [], draws => ([], draws)
  | (w, b) :: rest, draws =>
    match getEngine w, getEngine b with
    | some wc, some bc =>
      let opening := if book.length ≠ 0
        then (book.getD (stream draws % book.length) []) else []
      let draws2 := if book.length ≠ 0 then draws + 1 else draws
      let t := playPairings getEngine book stream rest draws2
      (⟨wc.name, bc.name, opening⟩ :: ⟨bc.name, wc.name, opening⟩ :: t.1, t.2)
    | _, _ => playPairings getEngine book stream rest draws

/-- Embeds the round loop of `run_round_robin` (tournament.py 150-177):
`rounds` passes over the same pairing list, threading the random stream. -/
def runRounds (getEngine : String → Option EngineConfig)
    (book : List Opening) (stream : Nat → Nat)
    (prs : List (String × String)) : Nat → Nat → List GamePlayed × Nat
  | 0, draws => ([], draws)
  | r + 1, draws =>
    let t1 := playPairings getEngine book stream prs draws
    let t2 := runRounds getEngine book stream prs r t1.2
    (t1.1 ++ t2.1, t2.2)

/-- Embeds `Tournament.run_round_robin` (tournament.py 120-180): the list
of games actually played, in order. -/
def run_round_robin (engine_names : List String) (rounds : Nat)
    (book : List Opening) (getEngine : String → Option EngineConfig)
    (stream : Nat → Nat) : List GamePlayed :=
  (runRounds getEngine book stream (pairings engine_names) rounds 0).1

/-- Twice the number of generated unordered pairs is n * (n - 1). -/
lemma pairings_length_twice {α : Type} (xs : List α) :
    2 * (pairings xs).length = xs.length * (xs.length - 1) := by
  induction xs with
  | nil => rfl
  | cons x xs ih =>
    simp only [pairings, List.length_append, List.length_map, List.length_cons]
    rw [Nat.add_sub_cancel, Nat.mul_add, ih]
    cases xs with
    | nil => rfl
    | cons y ys =>
      simp only [List.length_cons, Nat.add_sub_cancel]
      ring

/-- Every generated pair consists of members of the roster. -/
lemma pairings_mem {α : Type} (xs : List α) (p : α × α)
    (hp : p ∈ pairings xs) : p.1 ∈ xs ∧ p.2 ∈ xs := by
  induction xs with
  | nil => simp [pairings] at hp
  | cons x rest ih =>
    simp only [pairings, List.mem_append, List.mem_map] at hp
    rcases hp with ⟨y, hy, rfl⟩ | hp
    · exact ⟨List.mem_cons_self x rest, List.mem_cons_of_mem x hy⟩
    · exact ⟨List.mem_cons_of_mem x (ih hp).1, List.mem_cons_of_mem x (ih hp).2⟩

/-- When every name resolves, each pass over the pairing list plays exactly
two games per pair. -/
lemma playPairings_length (getEngine : String → Option EngineConfig)
    (book : List Opening) (stream : Nat → Nat)
    (prs : List (String × String)) (draws : Nat)
    (hres : ∀ p ∈ prs, (getEngine p.1).isSome ∧ (getEngine p.2).isSome) :
    (playPairings getEngine book stream prs draws).1.length
      = 2 * prs.length := by
  induction prs generalizing draws with
  | nil => rfl
  | cons p rest ih =>
    obtain ⟨h1, h2⟩ := hres p (List.mem_cons_self p rest)
    obtain ⟨wc, hwc⟩ := Option.isSome_iff_exists.mp h1
    obtain ⟨bc, hbc⟩ := Option.isSome_iff_exists.mp h2
    obtain ⟨w, b⟩ := p
    simp only [playPairings, hwc, hbc, List.length_cons]
    rw [ih _ (fun q hq => hres q (List.mem_cons_of_mem _ hq))]
    omega

/-- When every name resolves, r rounds play exactly r * (2 * pairs)
games. -/
lemma runRounds_length (getEngine : String → Option EngineConfig)
    (book : List Opening) (stream : Nat → Nat)
    (prs : List (String × String)) (rounds draws : Nat)
    (hres : ∀ p ∈ prs, (getEngine p.1).isSome ∧ (getEngine p.2).isSome) :
    (runRounds getEngine book stream prs rounds draws).1.length
      = rounds * (2 * prs.length) := by
  induction rounds generalizing draws with
  | zero => simp [runRounds]
  | succ r ih =>
    simp only [runRounds, List.length_append]
    rw [playPairings_length getEngine book stream prs draws hres, ih]
    ring

/-- Claim C3: for every roster of n >= 2 engines (all resolvable in the
registry) and every r >= 1 rounds, round-robin plans and plays
n * (n - 1) * r games: all unordered pairs are generated once and each
pair plays two games per round. -/
theorem claim_C3_round_robin_game_count (engine_names : List String)
    (rounds : Nat) (book : List Opening)
    (getEngine : String → Option EngineConfig) (stream : Nat → Nat)
    (hn : 2 ≤ engine_names.length) (hr : 1 ≤ rounds)
    (hres : ∀ nm ∈ engine_names, (getEngine nm).isSome) :
    total_games engine_names rounds
        = engine_names.length * (engine_names.length - 1) * rounds ∧
    (run_round_robin engine_names rounds book getEngine stream).length
        = engine_names.length * (engine_names.length - 1) * rounds := by
  have hp2 := pairings_length_twice engine_names
  have hresp : ∀ p ∈ pairings engine_names,
      (getEngine p.1).isSome ∧ (getEngine p.2).isSome := by
    intro p hp
    obtain ⟨hm1, hm2⟩ := pairings_mem engine_names p hp
    exact ⟨hres _ hm1, hres _ hm2⟩
  constructor
  · unfold total_games
    calc (pairings engine_names).length * rounds * 2
        = 2 * (pairings engine_names).length * rounds := by ring
      _ = engine_names.length * (engine_names.length - 1) * rounds := by
          rw [hp2]
  · unfold run_round_robin
    rw [runRounds_length getEngine book stream (pairings engine_names)
      rounds 0 hresp]
    calc rounds * (2 * (pairings engine_names).length)
        = 2 * (pairings engine_names).length * rounds := by ring
      _ = engine_names.length * (engine_names.length - 1) * rounds := by
          rw [hp2]

/-- Witness for claim C3: roster [A, B], one round, empty book: 2 games
are planned and played, and 2 * (2 - 1) * 1 = 2. -/
theorem claim_C3_round_robin_game_count_witness :
    (2 ≤ (["A", "B"] : List String).length ∧ (1:Nat) ≤ 1 ∧
      ∀ nm ∈ (["A", "B"] : List String),
        ((fun nm => some (EngineConfig.mk nm "px")) nm).isSome) ∧
    (total_games ["A", "B"] 1 = (["A", "B"] : List String).length *
        ((["A", "B"] : List String).length - 1) * 1 ∧
     (run_round_robin ["A", "B"] 1 []
        (fun nm => some (EngineConfig.mk nm "px")) (fun _ => 0)).length =
        (["A", "B"] : List String).length *
        ((["A", "B"] : List String).length - 1) * 1) :=
  ⟨⟨by decide, by decide, by decide⟩,
   claim_C3_round_robin_game_count ["A", "B"] 1 []
     (fun nm => some (EngineConfig.mk nm "px")) (fun _ => 0)
     (by decide) (by decide) (by decide)⟩

/-- Definition following the claim's words rather than the source, for
refinement comparison: a round-robin in which each game independently draws
its own opening from the pool, so the two color-swapped games of a pairing
consume two successive random draws. -/
def playPairingsPerGameDraw (getEngine : String → Option EngineConfig)
    (book : List Opening) (stream : Nat → Nat) :
    List (String × String) → Nat → List GamePlayed × Nat
  | [], draws => ([], draws)
  | (w, b) :: rest, draws =>
    match getEngine w, getEngine b with
    | some wc, some bc =>
      let op1 := if book.length ≠ 0
        then (book.getD (stream draws % book.length) []) else []
      let d1 := if book.length ≠ 0 then draws + 1 else draws
      let op2 := if book.length ≠ 0
        then (book.getD (stream d1 % book.length) []) else []
      let d2 := if book.length ≠ 0 then d1 + 1 else d1
      let t := playPairingsPerGameDraw getEngine book stream rest d2
      (⟨wc.name, bc.name, op1⟩ :: ⟨bc.name, wc.name, op2⟩ :: t.1, t.2)
    | _, _ => playPairingsPerGameDraw getEngine book stream rest draws

/-- Round loop of the claim-following per-game-draw variant. -/
def runRoundsPerGameDraw (getEngine : String → Option EngineConfig)
    (book : List Opening) (stream : Nat → Nat)
    (prs : List (String × String)) : Nat → Nat → List GamePlayed × Nat
  | 0, draws => ([], draws)
  | r + 1, draws =>
    let t1 := playPairingsPerGameDraw getEngine book stream prs draws
    let t2 := runRoundsPerGameDraw getEngine book stream prs r t1.2
    (t1.1 ++ t2.1, t2.2)

/-- Round-robin as the claim describes it: one independent draw per game. -/
def run_round_robin_per_game_draw (engine_names : List String) (rounds : Nat)
    (book : List Opening) (getEngine : String → Option EngineConfig)
    (stream : Nat → Nat) : List GamePlayed :=
  (runRoundsPerGameDraw getEngine book stream (pairings engine_names)
    rounds 0).1

/-- Counterexample to claim C8: with roster [A, B], one round, a two-entry
opening pool and the random stream choosing index 0 then index 1, the code
(tournament.py 165-177) draws ONE opening per pairing and gives it to both
color-swapped games, so both games open with "e2e4"; per-game independent
drawing as the claim states would give the second game "d2d4". -/
theorem claim_C8_shared_draw_counterexample :
    run_round_robin ["A", "B"] 1 [["e2e4"], ["d2d4"]]
        (fun nm => some (EngineConfig.mk nm "px")) (fun k => k) =
      [⟨"A", "B", ["e2e4"]⟩, ⟨"B", "A", ["e2e4"]⟩] ∧
    run_round_robin_per_game_draw ["A", "B"] 1 [["e2e4"], ["d2d4"]]
        (fun nm => some (EngineConfig.mk nm "px")) (fun k => k) =
      [⟨"A", "B", ["e2e4"]⟩, ⟨"B", "A", ["d2d4"]⟩] ∧
    run_round_robin ["A", "B"] 1 [["e2e4"], ["d2d4"]]
        (fun nm => some (EngineConfig.mk nm "px")) (fun k => k) ≠
    run_round_robin_per_game_draw ["A", "B"] 1 [["e2e4"], ["d2d4"]]
        (fun nm => some (EngineConfig.mk nm "px")) (fun k => k) :=
  ⟨by decide, by decide, by decide⟩

/-- The games list consists of consecutive two-game blocks in which both
games carry the same opening prefix. -/
inductive PairedOpenings : List GamePlayed → Prop
  | nil : PairedOpenings []
  | cons (g1 g2 : GamePlayed) (l : List GamePlayed)
      (h : g1.opening = g2.opening) (hl : PairedOpenings l) :
      PairedOpenings (g1 :: g2 :: l)

/-- PairedOpenings is closed under concatenation. -/
lemma PairedOpenings.append {l1 l2 : List GamePlayed}
    (h1 : PairedOpenings l1) (h2 : PairedOpenings l2) :
    PairedOpenings (l1 ++ l2) := by
  induction h1 with
  | nil => exact h2
  | cons g1 g2 l h hl ih => exact .cons g1 g2 (l ++ l2) h ih

/-- Each pass over the pairing list produces games in same-opening pairs. -/
lemma playPairings_paired (getEngine : String → Option EngineConfig)
    (book : List Opening) (stream : Nat → Nat)
    (prs : List (String × String)) :
    ∀ draws, PairedOpenings
      (playPairings getEngine book stream prs draws).1 := by
  induction prs with
  | nil => intro draws; exact .nil
  | cons p rest ih =>
    intro draws
    obtain ⟨w, b⟩ := p
    unfold playPairings
    rcases hw : getEngine w with _ | wc
    · exact ih draws
    · rcases hb : getEngine b with _ | bc
      · exact ih draws
      · exact .cons _ _ _ rfl (ih _)

/-- Claim C8 (amended): when an opening pool is configured, the scheduler
draws one opening per pairing per round and both color-swapped games of
that pairing share it: the games list always decomposes into consecutive
two-game blocks with equal opening prefixes. -/
theorem claim_C8_opening_shared_within_pairing (engine_names : List String)
    (rounds : Nat) (book : List Opening)
    (getEngine : String → Option EngineConfig) (stream : Nat → Nat) :
    PairedOpenings
      (run_round_robin engine_names rounds book getEngine stream) := by
  unfold run_round_robin
  generalize 0 = draws
  induction rounds generalizing draws with
  | zero => exact .nil
  | succ r ih =>
    exact (playPairings_paired getEngine book stream
      (pairings engine_names) draws).append (ih _)

/-- Outcome of constructing a protocol client and calling `start()`:
either an exception of the named Python class escapes, or `start()`
returns a boolean. -/
inductive StartOutcome
  | raised (exn : String)
  | returned (b : Bool)
deriving Repr, DecidableEq

/-- Embeds `UCIEngine.__init__` (uci_interface.py 39-41), which raises
`FileNotFoundError` when the engine path does not exist, followed by
`start()` (uci_interface.py 57-90), which returns True on a successful
spawn and catches every spawn exception, logging it and returning False.
`pathExists` abstracts `Path(engine_path).exists()`; `spawnOk` abstracts
whether `subprocess.Popen` succeeds.  No `StartupError` class exists
anywhere in the repository. -/
def uciCreateAndStart (pathExists spawnOk : Bool) : StartOutcome :=
  if pathExists = false then .raised "FileNotFoundError"
  else if spawnOk then .returned true
  else .returned false

/-- Counterexample to claim C4: an existing but unspawnable executable
makes `start()` return False — no exception at all, in particular no
StartupError; and a missing executable raises `FileNotFoundError` from
the constructor, before `start()` is ever reached. -/
theorem claim_C4_startup_error_counterexample :
    uciCreateAndStart true false = .returned false ∧
    uciCreateAndStart true false ≠ .raised "StartupError" ∧
    uciCreateAndStart false true = .raised "FileNotFoundError" ∧
    uciCreateAndStart false true ≠ .raised "StartupError" :=
  ⟨rfl, by decide, rfl, by decide⟩

/-- Claim C4 (amended): for a missing executable the client constructor
raises `FileNotFoundError` (before any game starts); for an existing but
unspawnable executable `start()` returns False without raising; in neither
case does startup succeed. -/
theorem claim_C4_startup_failure_modes (pathExists spawnOk : Bool)
    (h : pathExists = false ∨ spawnOk = false) :
    uciCreateAndStart pathExists spawnOk ≠ .returned true ∧
    uciCreateAndStart pathExists spawnOk =
      (if pathExists = false then .raised "FileNotFoundError"
       else .returned false) := by
  cases pathExists <;> cases spawnOk <;>
    simp_all [uciCreateAndStart]

/-- Witness for the amended claim C4 at the concrete input "path exists,
spawn fails". -/
theorem claim_C4_startup_failure_modes_witness :
    (true = false ∨ false = false) ∧
    (uciCreateAndStart true false ≠ .returned true ∧
     uciCreateAndStart true false =
       (if true = false then StartOutcome.raised "FileNotFoundError"
        else .returned false)) :=
  ⟨by decide, claim_C4_startup_failure_modes true false (by decide)⟩

/-- Teardown-relevant client state for `quit()`: whether `self.process` is
set, whether the OS process is still alive, and the reader-thread flag
`self.running`. -/
structure EngineProcState where
  hasProc : Bool
  procAlive : Bool
  running : Bool
deriving Repr, DecidableEq

/-- Nondeterministic environment of one `quit()` call: whether writing
"quit" to the engine's stdin raises (it does once the pipe is closed, but a
freshly dead process may still accept a buffered write), and whether
`process.wait(timeout=5)` raises TimeoutExpired. -/
structure QuitEnv where
  sendRaises : Bool
  waitTimesOut : Bool

/-- Embeds `UCIEngine.quit` (uci_interface.py 363-377).  The whole body is
one try/except: when `self.process` is set, send "quit", clear `running`
and wait up to 5 s; any exception along the way is caught and answered
with `process.kill()`, which is a no-op on an already-terminated process.
Every exception path is caught inside, so the embedding is a total
function: `quit()` itself never raises. -/
def quitStep (s : EngineProcState) (env : QuitEnv) : EngineProcState :=
  if s.hasProc then
    if env.sendRaises then
      { s with procAlive := false }
    else
      let s1 := { s with running := false }
      if s1.procAlive && env.waitTimesOut then
        { s1 with procAlive := false }
      else
        { s1 with procAlive := false }
  else s

/-- Claim C9: `quit()` is idempotent — called twice on the same started
client, under every combination of pipe/wait failures (including a process
that is already dead at either call), both calls complete without raising
(the embedding is total and all exception paths are internal) and the
client ends terminated after each call. -/
theorem claim_C9_quit_idempotent (s : EngineProcState) (e1 e2 : QuitEnv)
    (h : s.hasProc = true) :
    (quitStep s e1).procAlive = false ∧
    (quitStep (quitStep s e1) e2).procAlive = false ∧
    (quitStep (quitStep s e1) e2).hasProc = true := by
  obtain ⟨hp, pa, rn⟩ := s
  obtain ⟨sr1, wt1⟩ := e1
  obtain ⟨sr2, wt2⟩ := e2
  subst h
  revert pa rn sr1 wt1 sr2 wt2
  decide

/-- Witness for claim C9: a started, live client quit twice with clean
pipe writes and no wait timeout. -/
theorem claim_C9_quit_idempotent_witness :
    (EngineProcState.mk true true true).hasProc = true ∧
    ((quitStep (EngineProcState.mk true true true)
        (QuitEnv.mk false false)).procAlive = false ∧
     (quitStep (quitStep (EngineProcState.mk true true true)
        (QuitEnv.mk false false)) (QuitEnv.mk false false)).procAlive
        = false ∧
     (quitStep (quitStep (EngineProcState.mk true true true)
        (QuitEnv.mk false false)) (QuitEnv.mk false false)).hasProc
        = true) :=
  ⟨rfl, claim_C9_quit_idempotent (EngineProcState.mk true true true)
    (QuitEnv.mk false false) (QuitEnv.mk false false) rfl⟩

/-- Python substring containment `needle in hay`, on character lists. -/
def listContains (needle : List Char) : List Char → Bool
  | [] => needle.isPrefixOf ([] : List Char)
  | c :: t => needle.isPrefixOf (c :: t) || listContains needle t

/-- Python substring containment on strings (`expected in line`). -/
def strContains (hay needle : String) : Bool :=
  listContains needle.toList hay.toList

/-- Embeds `UCIEngine.read_until(expected, timeout)`
(uci_interface.py 120-149).  The bounded polling loop is modelled by the
finite list of poll results: `some l` is a line popped from the reader
queue, `none` is a `queue.Empty` poll (the 0.1 s granularity); the list's
length is the number of iterations the timeout allows.  Lines are
collected in arrival order; the first line containing `expected` ends the
wait; on exhaustion the partial line list is returned — never an
exception. -/
def read_until (expected : String) : List (Option String) → List String
  | [] => []
  | none :: polls => read_until expected polls
  | some l :: polls =>
    if strContains l expected then [l] else l :: read_until expected polls

/-- Embeds `UCIEngine.is_ready(timeout)` (uci_interface.py 222-230):
send `isready` (a raising send is caught, returning False) and succeed iff
some collected line contains "readyok". -/
def is_ready (sendOk : Bool) (polls : List (Option String)) : Bool :=
  if sendOk then
    (read_until "readyok" polls).any (fun l => strContains l "readyok")
  else false

/-- Embeds `UCIEngine.initialize` (uci_interface.py 151-196): send `uci`
(a raising send is caught by the outer try/except, returning False), wait
for "uciok" with the 10 s deadline (100 polls at 0.1 s granularity),
return False when no collected line contains "uciok"; otherwise parse the
id/option lines (which cannot change the return value) and return the
result of the readiness probe. -/
def engineInit (sendUciOk : Bool) (uciPolls : List (Option String))
    (sendReadyOk : Bool) (readyPolls : List (Option String)) : Bool :=
  if sendUciOk then
    if (read_until "uciok" uciPolls).any (fun l => strContains l "uciok")
    then is_ready sendReadyOk readyPolls
    else false
  else false

/-- Decidable statement that no line a poll list can deliver contains the
sentinel. -/
def noLineContains (needle : String) (polls : List (Option String)) : Bool :=
  polls.all (fun o => match o with
    | some l => !(strContains l needle)
    | none => true)

/-- Every line collected by `read_until` came off the poll list. -/
lemma read_until_mem (expected : String) (polls : List (Option String)) :
    ∀ l ∈ read_until expected polls, some l ∈ polls := by
  induction polls with
  | nil => intro l hl; simp [read_until] at hl
  | cons p rest ih =>
    intro l hl
    match p with
    | none =>
      exact List.mem_cons_of_mem _ (ih l (by simpa [read_until] using hl))
    | some l0 =>
      by_cases hc : strContains l0 expected
      · simp [read_until, hc] at hl
        subst hl
        exact List.mem_cons_self _ _
      · simp only [read_until, hc, if_false, List.mem_cons,
          Bool.false_eq_true] at hl
        rcases hl with rfl | hl
        · exact List.mem_cons_self _ _
        · exact List.mem_cons_of_mem _ (ih l hl)

/-- `read_until` returns at most one line per poll iteration: the
collected output is bounded by the deadline divided by the polling
granularity. -/
lemma read_until_length (expected : String) (polls : List (Option String)) :
    (read_until expected polls).length ≤ polls.length := by
  induction polls with
  | nil => simp [read_until]
  | cons p rest ih =>
    match p with
    | none => simp only [read_until, List.length_cons]; omega
    | some l0 =>
      by_cases hc : strContains l0 expected <;>
        simp only [read_until, hc, if_true, if_false, List.length_cons,
          List.length_nil, Bool.false_eq_true] <;> omega

/-- If the polls never deliver a line containing the sentinel, no
collected line contains it. -/
lemma read_until_no_sentinel (expected : String)
    (polls : List (Option String))
    (h : noLineContains expected polls = true) :
    ((read_until expected polls).any
      (fun l => strContains l expected)) = false := by
  rw [Bool.eq_false_iff]
  intro hany
  rw [List.any_eq_true] at hany
  obtain ⟨l, hl, hc⟩ := hany
  have hm := read_until_mem expected polls l hl
  rw [noLineContains, List.all_eq_true] at h
  have := h (some l) hm
  simp only [Bool.not_eq_true'] at this
  rw [this] at hc
  exact Bool.false_ne_true hc

/-- Claim C6: for every engine whose output never contains `uciok` within
the polling budget of the 10-second deadline, `initialize()` returns false
— it never raises, being a total function whose internal exceptions
(failing sends) are all caught; the same false-not-exception contract
holds when the readiness probe after `uciok` never sees `readyok`. -/
theorem claim_C6_init_returns_false (sendUciOk sendReadyOk : Bool)
    (uciPolls readyPolls : List (Option String))
    (h : noLineContains "uciok" uciPolls = true ∨
         noLineContains "readyok" readyPolls = true) :
    engineInit sendUciOk uciPolls sendReadyOk readyPolls = false ∧
    (read_until "uciok" uciPolls).length ≤ uciPolls.length := by
  refine ⟨?_, read_until_length "uciok" uciPolls⟩
  unfold engineInit is_ready
  cases sendUciOk
  · rfl
  · rcases h with h | h
    · rw [read_until_no_sentinel "uciok" uciPolls h]
      rfl
    · rw [read_until_no_sentinel "readyok" readyPolls h]
      cases hu : (read_until "uciok" uciPolls).any
          (fun l => strContains l "uciok") <;> simp

/-- Witness for claim C6: a fake engine answering only id lines and
silence; `initialize()` returns false. -/
theorem claim_C6_init_returns_false_witness :
    (noLineContains "uciok"
        [some "id name Fake", none, some "id author Nobody"] = true ∨
     noLineContains "readyok" ([] : List (Option String)) = true) ∧
    (engineInit true [some "id name Fake", none, some "id author Nobody"]
        true [] = false ∧
     (read_until "uciok"
        [some "id name Fake", none, some "id author Nobody"]).length ≤
       ([some "id name Fake", none, some "id author Nobody"] :
         List (Option String)).length) :=
  ⟨Or.inl (by decide),
   claim_C6_init_returns_false true true
     [some "id name Fake", none, some "id author Nobody"] []
     (Or.inl (by decide))⟩

/-- ASCII whitespace, the relevant fragment of the regex class `\s`
(engine lines on the reader queue are `strip()`-ed ASCII protocol text). -/
def isWSpace (c : Char) : Bool :=
  c == ' ' || c == '\t' || c == '\n' || c == '\r' ||
    c == '\x0b' || c == '\x0c'

/-- The regex word class `\w` (ASCII fragment). -/
def wordChar (c : Char) : Bool :=
  c.isAlphanum || c == '_'

/-- Embeds `re.search(r'type (\w+)', rest)` (uci_interface.py 210-212):
the capture of the first occurrence of the literal "type " followed by a
maximal nonempty word-character run. -/
def searchTypeVal : List Char → Option (List Char)
  | [] => none
  | c :: rest =>
    if ("type ".toList).isPrefixOf (c :: rest) then
      let w := ((c :: rest).drop 5).takeWhile wordChar
      if w ≠ [] then some w else searchTypeVal rest
    else searchTypeVal rest

/-- Embeds `re.search(r'default (\S+)', rest)` (uci_interface.py 216-218):
the capture of the first occurrence of the literal "default " followed by
a maximal nonempty non-whitespace run. -/
def searchDefaultVal : List Char → Option (List Char)
  | [] => none
  | c :: rest =>
    if ("default ".toList).isPrefixOf (c :: rest) then
      let w := ((c :: rest).drop 8).takeWhile (fun ch => !(isWSpace ch))
      if w ≠ [] then some w else searchDefaultVal rest
    else searchDefaultVal rest

/-- Matching of the optional group `\s+type\s+(.+)$` of the option-name
regex (uci_interface.py 201) at a given suffix, with backtracking: the
first `\s+` must consume the whole whitespace run (the literal "type"
starts with a non-space), and after "type" the greedy `\s+` gives one
whitespace character back to `(.+)` when nothing else is left. -/
def typeTail (s : List Char) : Option (List Char) :=
  let ws1 := s.takeWhile isWSpace
  let r1 := s.dropWhile isWSpace
  if ws1 = [] then none
  else if ("type".toList).isPrefixOf r1 then
    let r2 := r1.drop 4
    let ws2 := r2.takeWhile isWSpace
    let r3 := r2.dropWhile isWSpace
    if ws2 = [] then none
    else if r3 ≠ [] then some r3
    else if 2 ≤ ws2.length then some (ws2.drop (ws2.length - 1))
    else none
  else none

/-- The lazy group `(.+?)` of `re.match(r'option name (.+?)(?:\s+type\s+(.+))?$', line)`
(uci_interface.py 201): scanning for the shortest nonempty name prefix, at
each length trying the optional type group first and end-of-line second.
The accumulator holds the name candidate reversed.  (Engine lines are
stripped of newlines by the reader, so `.` is modelled as any character.) -/
def nameScan : List Char → List Char → Option (List Char × Option (List Char))
  | accRev, [] => if accRev ≠ [] then some (accRev.reverse, none) else none
  | accRev, c :: rest =>
    if accRev ≠ [] then
      match typeTail (c :: rest) with
      | some cap => some (accRev.reverse, some cap)
      | none => nameScan (c :: accRev) rest
    else nameScan (c :: accRev) rest

/-- Python `str.strip()` on a character list. -/
def stripWS (s : List Char) : List Char :=
  ((s.dropWhile isWSpace).reverse.dropWhile isWSpace).reverse

/-- Python dict lookup (`d.get(k)`) on an insertion-ordered association
list. -/
def dictLookup {α β : Type} [DecidableEq α] : List (α × β) → α → Option β
  | [], _ => none
  | (k0, v0) :: rest, k => if k0 = k then some v0 else dictLookup rest k

/-- Python dict assignment (`d[k] = v`) on an insertion-ordered
association list: update in place, else append. -/
def dictSet {α β : Type} [DecidableEq α] :
    List (α × β) → α → β → List (α × β)
  | [], k, v => [(k, v)]
  | (k0, v0) :: rest, k, v =>
    if k0 = k then (k0, v) :: rest else (k0, v0) :: dictSet rest k v

/-- Embeds `UCIEngine._parse_option(line)` (uci_interface.py 198-220):
anchor-match the name regex, strip the captured name, then build the
option-info dict: always the raw line; a "type" entry only when the
substring "type" occurs in the text AFTER the consumed type keyword and
the value search succeeds; a "default" entry when the substring "default"
occurs there and the value search succeeds.  No code path records "min" or
"max". -/
def parse_option (line : List Char) :
    Option (List Char × List (String × List Char)) :=
  if ("option name ".toList).isPrefixOf line then
    match nameScan [] (line.drop 12) with
    | none => none
    | some (rawName, restOpt) =>
      let rest := restOpt.getD []
      let base : List (String × List Char) := [("raw", line)]
      let withT :=
        match (if listContains ("type".toList) rest
               then searchTypeVal rest else none) with
        | some v => base ++ [("type", v)]
        | none => base
      let withD :=
        match (if listContains ("default".toList) rest
               then searchDefaultVal rest else none) with
        | some v => withT ++ [("default", v)]
        | none => withT
      some (stripWS rawName, withD)
  else none

/-- One iteration of the option-collecting loop of `initialize`
(uci_interface.py 171-177): lines starting with "option name" are parsed
and stored in the options dict under the captured name. -/
def optionsStep (acc : List (List Char × List (String × List Char)))
    (l : List Char) : List (List Char × List (String × List Char)) :=
  if ("option name".toList).isPrefixOf l then
    match parse_option l with
    | some (nm, info) => dictSet acc nm info
    | none => acc
  else acc

/-- The options mapping `initialize` builds from the lines collected
before `uciok` (uci_interface.py 170-177). -/
def optionsFrom (lines : List (List Char)) :
    List (List Char × List (String × List Char)) :=
  lines.foldl optionsStep []

/-- The keys an option-info dict can ever receive in `_parse_option`. -/
def infoKeysOK (info : List (String × List Char)) : Bool :=
  info.all (fun kv => kv.1 == "raw" || kv.1 == "type" || kv.1 == "default")

/-- The code's own documented example line (uci_interface.py 200). -/
def exOptionLine : List Char :=
  "option name Hash type spin default 16 min 1 max 65536".toList

/-- An info dict whose keys are only raw/type/default has no "min" and no
"max" entry. -/
lemma infoKeysOK_no_min_max (info : List (String × List Char))
    (h : infoKeysOK info = true) :
    dictLookup info "min" = none ∧ dictLookup info "max" = none := by
  induction info with
  | nil => exact ⟨rfl, rfl⟩
  | cons kv rest ih =>
    obtain ⟨k, v⟩ := kv
    simp only [infoKeysOK, List.all_cons, Bool.and_eq_true, Bool.or_eq_true,
      beq_iff_eq] at h
    obtain ⟨hk, hrest⟩ := h
    have hr := ih hrest
    unfold dictLookup
    rcases hk with (rfl | rfl) | rfl <;>
      exact ⟨by simp [hr.1], by simp [hr.2]⟩

/-- Every dict `_parse_option` produces carries only the keys raw, type
and default. -/
lemma parse_option_keysOK (l nm : List Char)
    (info : List (String × List Char))
    (h : parse_option l = some (nm, info)) : infoKeysOK info = true := by
  unfold parse_option at h
  split at h
  · split at h
    · exact absurd h (by simp)
    · rename_i rawName restOpt heq
      simp only at h
      rcases ht : (if listContains ("type".toList) (restOpt.getD [])
          then searchTypeVal (restOpt.getD []) else none) with _ | tv <;>
        rcases hd : (if listContains ("default".toList) (restOpt.getD [])
            then searchDefaultVal (restOpt.getD []) else none) with _ | dv <;>
        rw [ht, hd] at h <;>
        simp only [Option.some.injEq, Prod.mk.injEq] at h <;>
        obtain ⟨-, rfl⟩ := h <;>
        simp [infoKeysOK]
  · exact absurd h (by simp)

/-- dictLookup only returns values satisfying a predicate that all entries
satisfy. -/
lemma dictLookup_of_all {α β : Type} [DecidableEq α] (p : β → Bool)
    (l : List (α × β)) (hall : l.all (fun e => p e.2) = true)
    (k : α) (v : β) (hv : dictLookup l k = some v) : p v = true := by
  induction l with
  | nil => simp [dictLookup] at hv
  | cons e rest ih =>
    obtain ⟨k0, v0⟩ := e
    simp only [List.all_cons, Bool.and_eq_true] at hall
    unfold dictLookup at hv
    split at hv
    · injection hv with h
      subst h
      exact hall.1
    · exact ih hall.2 hv

/-- dictSet preserves an all-entries predicate when the inserted value
satisfies it. -/
lemma dictSet_of_all {α β : Type} [DecidableEq α] (p : β → Bool)
    (l : List (α × β)) (k : α) (v : β)
    (hall : l.all (fun e => p e.2) = true) (hv : p v = true) :
    (dictSet l k v).all (fun e => p e.2) = true := by
  induction l with
  | nil => simp [dictSet, hv]
  | cons e rest ih =>
    obtain ⟨k0, v0⟩ := e
    simp only [List.all_cons, Bool.and_eq_true] at hall
    unfold dictSet
    split
    · simp [hv, hall.2]
    · simp [hall.1, ih hall.2]

/-- Every value in the options mapping `initialize` builds has only
raw/type/default keys. -/
lemma optionsFrom_all (lines : List (List Char)) :
    (optionsFrom lines).all (fun e => infoKeysOK e.2) = true := by
  have aux : ∀ (ls : List (List Char))
      (acc : List (List Char × List (String × List Char))),
      acc.all (fun e => infoKeysOK e.2) = true →
      (ls.foldl optionsStep acc).all (fun e => infoKeysOK e.2) = true := by
    intro ls
    induction ls with
    | nil => intro acc hacc; exact hacc
    | cons l rest ih =>
      intro acc hacc
      refine ih _ ?_
      unfold optionsStep
      split
      · rcases hpo : parse_option l with _ | nmInfo
        · exact hacc
        · obtain ⟨nm2, info2⟩ := nmInfo
          exact dictSet_of_all _ acc nm2 info2 hacc
            (parse_option_keysOK l nm2 info2 hpo)
      · exact hacc
  exact aux lines [] rfl

/-- Counterexample to claim C5: on the code's own documented example line,
the parsed option info records only the raw line and the default — the
"min 1" and "max 65536" fields present in the line are not recorded (no
code path ever writes them), and even the type "spin" is lost because the
check `"type" in rest` inspects the text AFTER the regex already consumed
the type keyword. -/
theorem claim_C5_min_max_counterexample :
    parse_option exOptionLine =
      some ("Hash".toList, [("raw", exOptionLine), ("default", "16".toList)]) ∧
    dictLookup (optionsFrom [exOptionLine]) ("Hash".toList) =
      some [("raw", exOptionLine), ("default", "16".toList)] ∧
    dictLookup [("raw", exOptionLine), ("default", "16".toList)] "min"
      = none ∧
    dictLookup [("raw", exOptionLine), ("default", "16".toList)] "max"
      = none ∧
    dictLookup [("raw", exOptionLine), ("default", "16".toList)] "type"
      = none ∧
    listContains ("min".toList) exOptionLine = true ∧
    listContains ("max".toList) exOptionLine = true ∧
    listContains ("type".toList) exOptionLine = true :=
  ⟨by decide, by decide, by decide, by decide, by decide, by decide,
   by decide, by decide⟩

/-- Claim C5 (amended): `initialize()` parses each `option name ...` line
into the options mapping, recording the raw line and the default value
when present (and a type value only in the corner case where the substring
"type" reoccurs after the consumed type keyword); no entry of the mapping
ever records a min or max field. -/
theorem claim_C5_no_min_max_recorded (lines : List (List Char))
    (nm : List Char) (info : List (String × List Char))
    (h : dictLookup (optionsFrom lines) nm = some info) :
    dictLookup info "min" = none ∧ dictLookup info "max" = none :=
  infoKeysOK_no_min_max info
    (dictLookup_of_all _ (optionsFrom lines) (optionsFrom_all lines) nm info h)

/-- Witness for the amended claim C5 at the example option line. -/
theorem claim_C5_no_min_max_recorded_witness :
    dictLookup (optionsFrom [exOptionLine]) ("Hash".toList) =
      some [("raw", exOptionLine), ("default", "16".toList)] ∧
    (dictLookup [("raw", exOptionLine), ("default", "16".toList)] "min"
        = none ∧
     dictLookup [("raw", exOptionLine), ("default", "16".toList)] "max"
        = none) :=
  ⟨by decide,
   claim_C5_no_min_max_recorded [exOptionLine] ("Hash".toList)
     [("raw", exOptionLine), ("default", "16".toList)] (by decide)⟩

end Testchess
